import Mathlib

/-!
Shallow embedding of `tasks/cephfs_test_runner.py`: the context-decorating
test loader, the log-redirecting sink, the fail-fast execution engine with
its plain and interactive failure policies, and the task's suite assembly
and aggregate-error verdict.

Text is modelled as `List Char`; Python's `str.split("\n")` is `splitLines`.
-/

namespace CephfsTestRunner

/-- Python's `buffer.split("\n")` on a single-character separator:
the list of maximal `'\n'`-free segments, including empty ones, with one
more segment than there are newlines. -/
def splitLines : List Char → List (List Char)
  | [] => [[]]
  | c :: cs =>
    if c = '\n' then
      [] :: splitLines cs
    else
      match splitLines cs with
      | [] => [[c]]
      | l :: ls => (c :: l) :: ls

/-- `LogStream`: the log-redirecting sink (`class LogStream`), holding the
buffered partial line. -/
structure LogStream where
  buffer : List Char
deriving DecidableEq, Repr

/-- `LogStream.write(self, data)`: append `data` to the buffer; if the buffer
now contains a newline, split it, emit every complete line (`lines[:-1]`) as a
log record, and retain `lines[-1]` as the new buffer. Returns the emitted
records alongside the updated stream. -/
def LogStream.write (s : LogStream) (data : List Char) : List (List Char) × LogStream :=
  let buffer := s.buffer ++ data
  if '\n' ∈ buffer then
    let lines := splitLines buffer
    (lines.dropLast, ⟨lines.getLastD []⟩)
  else
    ([], ⟨buffer⟩)

theorem splitLines_ne_nil (l : List Char) : splitLines l ≠ [] := by
  cases l with
  | nil => simp [splitLines]
  | cons c cs =>
    simp only [splitLines]
    by_cases h : c = '\n'
    · simp [h]
    · simp only [h, if_false]
      cases splitLines cs <;> simp

theorem splitLines_of_not_mem (l : List Char) (h : '\n' ∉ l) : splitLines l = [l] := by
  induction l with
  | nil => rfl
  | cons c cs ih =>
    have hc : c ≠ '\n' := fun hc => h (hc ▸ List.mem_cons_self c cs)
    have hcs : '\n' ∉ cs := fun hm => h (List.mem_cons_of_mem c hm)
    simp [splitLines, hc, ih hcs]

theorem not_mem_of_mem_splitLines (l : List Char) (p : List Char)
    (hp : p ∈ splitLines l) : '\n' ∉ p := by
  induction l generalizing p with
  | nil =>
    simp [splitLines] at hp
    simp [hp]
  | cons c cs ih =>
    by_cases h : c = '\n'
    · simp [splitLines, h] at hp
      rcases hp with hp | hp
      · simp [hp]
      · exact ih p hp
    · simp only [splitLines, h, if_false] at hp
      rcases hsplit : splitLines cs with _ | ⟨l0, ls⟩
      · exact absurd hsplit (splitLines_ne_nil cs)
      · rw [hsplit] at hp
        rcases List.mem_cons.mp hp with hp | hp
        · subst hp
          intro hmem
          rcases List.mem_cons.mp hmem with hx | hx
          · exact h hx.symm
          · exact ih l0 (hsplit ▸ List.mem_cons_self l0 ls) hx
        · exact ih p (hsplit ▸ List.mem_cons_of_mem l0 hp)

/-- Joining with `'\n'`: the inverse of `splitLines`. -/
def joinLines : List (List Char) → List Char
  | [] => []
  | [l] => l
  | l :: ls => l ++ '\n' :: joinLines ls

theorem joinLines_splitLines (l : List Char) : joinLines (splitLines l) = l := by
  induction l with
  | nil => rfl
  | cons c cs ih =>
    by_cases h : c = '\n'
    · subst h
      simp only [splitLines, if_pos rfl]
      rcases hsplit : splitLines cs with _ | ⟨l0, ls⟩
      · exact absurd hsplit (splitLines_ne_nil cs)
      · rw [hsplit] at ih
        simpa [joinLines, hsplit] using ih
    · simp only [splitLines, h, if_false]
      rcases hsplit : splitLines cs with _ | ⟨l0, ls⟩
      · exact absurd hsplit (splitLines_ne_nil cs)
      · rw [hsplit] at ih
        cases ls with
        | nil => simpa [joinLines] using congrArg (c :: ·) ih
        | cons l1 ls1 => simpa [joinLines] using congrArg (c :: ·) ih

theorem LogStream.write_eq (s : LogStream) (data : List Char) :
    (s.write data).1 = (splitLines (s.buffer ++ data)).dropLast
    ∧ (s.write data).2.buffer = (splitLines (s.buffer ++ data)).getLastD [] := by
  unfold LogStream.write
  by_cases h : '\n' ∈ s.buffer ++ data
  · simp [h]
  · simp [h, splitLines_of_not_mem _ h]

/-- The execution context `ctx` supplied by the orchestrator, as far as this
system reads or writes it: the mapping of mount identifiers to mount handles
(`ctx.mounts`), the `interactive-on-error` flag read from `ctx.config`, and
the `fs` attribute the task stores onto it (`ctx.fs = fs`). Mount handles and
the filesystem handle are modelled as opaque numeric identifiers. -/
structure Ctx where
  mounts : List (Nat × Nat)
  interactiveOnError : Bool
  fs : Option Nat
deriving DecidableEq, Repr

/-- The task's `config` mapping, as far as this system reads it: the optional
`modules` list. `modules = none` models a config dict without the key. -/
structure Config where
  modules : Option (List String)
deriving DecidableEq, Repr

/-- The outcome of executing one test case: it passes, fails (assertion
failure, reported through `addFailure`), or errors (unexpected exception,
reported through `addError`). -/
inductive Outcome
  | pass
  | fail
  | err
deriving DecidableEq, Repr

/-- One test case as the result object sees it: `name` is `str(test)`,
`desc` is `result.getDescription(test)`, `excText` is
`result._exc_info_to_string(err, test)` for its failure/error (unused when
it passes), and `outcome` is what running it produces. -/
structure TestCase where
  name : String
  desc : String
  excText : String
  outcome : Outcome
deriving DecidableEq, Repr

/-- Observable side effects of the engine: `log.info` records, `log.error`
records, execution of a test body, and an invocation of the external
interactive debugging collaborator `interactive.task(ctx=..., config=...)`. -/
inductive Event
  | logInfo (msg : String)
  | logError (msg : String)
  | exec (testName : String)
  | interactiveTask (ctx : Ctx) (config : Option Config)
deriving DecidableEq, Repr

/-- The Run Result (`unittest.TestResult` bookkeeping): tests run, the
`failures` and `errors` lists of `(str(test), exc_text)` pairs, and the
`shouldStop` flag that fail-fast sets via `stop()`. -/
structure RunResult where
  testsRun : Nat
  failures : List (String × String)
  errors : List (String × String)
  shouldStop : Bool
deriving DecidableEq, Repr

/-- A fresh Run Result, as `TextTestRunner._makeResult` creates it. -/
def initResult : RunResult := ⟨0, [], [], false⟩

/-- Plain variant `addFailure` (from `TextTestResult`/`TestResult` with
`failfast=True`): append `(str(test), exc_text)` to `failures` and call
`stop()`. Emits no log records of its own. -/
def addFailurePlain (r : RunResult) (t : TestCase) : RunResult × List Event :=
  ({ r with failures := r.failures ++ [(t.name, t.excText)], shouldStop := true }, [])

/-- Plain variant `addError`: append to `errors` and call `stop()`. -/
def addErrorPlain (r : RunResult) (t : TestCase) : RunResult × List Event :=
  ({ r with errors := r.errors ++ [(t.name, t.excText)], shouldStop := true }, [])

/-- `InteractiveFailureResult.addFailure`: log the formatted error detail,
log the diagnostic message naming the test, invoke
`interactive.task(ctx=self.ctx, config=None)`. It does not call the
superclass method, so nothing is recorded and `stop()` is never reached. -/
def addFailureInteractive (ctx : Ctx) (r : RunResult) (t : TestCase) : RunResult × List Event :=
  (r, [Event.logError t.excText,
       Event.logError ("Failure in test " ++ t.desc ++ ", going interactive"),
       Event.interactiveTask ctx none])

/-- `InteractiveFailureResult.addError`: same shape with the `Error in test`
diagnostic. -/
def addErrorInteractive (ctx : Ctx) (r : RunResult) (t : TestCase) : RunResult × List Event :=
  (r, [Event.logError t.excText,
       Event.logError ("Error in test " ++ t.desc ++ ", going interactive"),
       Event.interactiveTask ctx none])

/-- Running one test under `LoggingResult`: `startTest` logs
`Starting test: <desc>` and delegates to the superclass (which increments
`testsRun`), the test body executes, and the outcome is reported through the
chosen policy's `addFailure`/`addError` (nothing on success). -/
def runOneTest (onFailure onError : RunResult → TestCase → RunResult × List Event)
    (r : RunResult) (t : TestCase) : RunResult × List Event :=
  let r1 : RunResult := { r with testsRun := r.testsRun + 1 }
  let step :=
    match t.outcome with
    | Outcome.pass => (r1, [])
    | Outcome.fail => onFailure r1 t
    | Outcome.err => onError r1 t
  (step.1, Event.logInfo ("Starting test: " ++ t.desc) :: Event.exec t.name :: step.2)

/-- One test under the plain policy (`unittest.TextTestResult`). -/
def stepPlain : RunResult → TestCase → RunResult × List Event :=
  runOneTest addFailurePlain addErrorPlain

/-- One test under the interactive policy (`InteractiveFailureResult` with
class attribute `ctx`). -/
def stepInteractive (ctx : Ctx) : RunResult → TestCase → RunResult × List Event :=
  runOneTest (addFailureInteractive ctx) (addErrorInteractive ctx)

/-- `TestSuite.run`: run the tests in order, checking `result.shouldStop`
before each one and stopping the iteration when it is set. -/
def runSuite (step : RunResult → TestCase → RunResult × List Event) :
    RunResult → List TestCase → RunResult × List Event
  | r, [] => (r, [])
  | r, t :: ts =>
    if r.shouldStop then (r, [])
    else
      let s1 := step r t
      let s2 := runSuite step s1.1 ts
      (s2.1, s1.2 ++ s2.2)

/-- `result.wasSuccessful()` (Python 2 semantics): no recorded failures and
no recorded errors. -/
def wasSuccessful (r : RunResult) : Bool :=
  r.failures.isEmpty && r.errors.isEmpty

/-- The `bad_tests` list the task builds after the run: `str(test)` for every
recorded error, then for every recorded failure. -/
def badTests (r : RunResult) : List String :=
  r.errors.map Prod.fst ++ r.failures.map Prod.fst

/-- The tail of `task`: if the result was not successful, raise
`RuntimeError("Test failure: <comma-joined bad_tests>")`; otherwise yield
normally. -/
def taskVerdict (r : RunResult) : Except String Unit :=
  if wasSuccessful r then Except.ok ()
  else Except.error ("Test failure: " ++ String.intercalate ", " (badTests r))

/-- `ctx.fs = fs`: the one write the task performs on the execution
context. -/
def taskCtxUpdate (ctx : Ctx) (fsHandle : Nat) : Ctx :=
  { ctx with fs := some fsHandle }

/-- The event block the interactive-policy run emits for one test. -/
def interactiveBlock (ctx : Ctx) (t : TestCase) : List Event :=
  Event.logInfo ("Starting test: " ++ t.desc) :: Event.exec t.name ::
    match t.outcome with
    | Outcome.pass => []
    | Outcome.fail =>
        [Event.logError t.excText,
         Event.logError ("Failure in test " ++ t.desc ++ ", going interactive"),
         Event.interactiveTask ctx none]
    | Outcome.err =>
        [Event.logError t.excText,
         Event.logError ("Error in test " ++ t.desc ++ ", going interactive"),
         Event.interactiveTask ctx none]

/-- The event block the plain-policy run emits for one test (the outcome
handlers write only to the text stream, not the structured log). -/
def plainBlock (t : TestCase) : List Event :=
  [Event.logInfo ("Starting test: " ++ t.desc), Event.exec t.name]

/-- The tests a fail-fast run actually executes: the passing head of the
suite plus, when one exists, the first failing/erroring test. -/
def failfastTaken : List TestCase → List TestCase
  | [] => []
  | t :: ts => if t.outcome = Outcome.pass then t :: failfastTaken ts else [t]

/-- The first failing/erroring test of the suite, if any. -/
def firstBad : List TestCase → Option TestCase
  | [] => none
  | t :: ts => if t.outcome = Outcome.pass then firstBad ts else some t

theorem runSuite_of_shouldStop (step : RunResult → TestCase → RunResult × List Event)
    (r : RunResult) (ts : List TestCase) (h : r.shouldStop = true) :
    runSuite step r ts = (r, []) := by
  cases ts with
  | nil => rfl
  | cons t ts => simp [runSuite, h]

theorem runSuite_cons_fst (step : RunResult → TestCase → RunResult × List Event)
    (r : RunResult) (t : TestCase) (ts : List TestCase) (h : r.shouldStop = false) :
    (runSuite step r (t :: ts)).1 = (runSuite step (step r t).1 ts).1 := by
  simp [runSuite, h]

theorem runSuite_cons_snd (step : RunResult → TestCase → RunResult × List Event)
    (r : RunResult) (t : TestCase) (ts : List TestCase) (h : r.shouldStop = false) :
    (runSuite step r (t :: ts)).2 = (step r t).2 ++ (runSuite step (step r t).1 ts).2 := by
  simp [runSuite, h]

theorem stepInteractive_fst (c : Ctx) (r : RunResult) (t : TestCase) :
    (stepInteractive c r t).1 = { r with testsRun := r.testsRun + 1 } := by
  cases h : t.outcome <;>
    simp [stepInteractive, runOneTest, addFailureInteractive, addErrorInteractive, h]

theorem stepInteractive_snd (c : Ctx) (r : RunResult) (t : TestCase) :
    (stepInteractive c r t).2 = interactiveBlock c t := by
  cases h : t.outcome <;>
    simp [stepInteractive, runOneTest, addFailureInteractive, addErrorInteractive,
      interactiveBlock, h]

theorem runSuite_interactive_snd (c : Ctx) (r : RunResult) (ts : List TestCase)
    (h : r.shouldStop = false) :
    (runSuite (stepInteractive c) r ts).2 = ts.flatMap (interactiveBlock c) := by
  induction ts generalizing r with
  | nil => simp [runSuite]
  | cons t ts ih =>
    have h1 : ((stepInteractive c r t).1).shouldStop = false := by
      rw [stepInteractive_fst]; exact h
    rw [runSuite_cons_snd _ _ _ _ h, stepInteractive_snd, ih _ h1]
    simp

theorem runSuite_interactive_fst (c : Ctx) (r : RunResult) (ts : List TestCase)
    (h : r.shouldStop = false) :
    (runSuite (stepInteractive c) r ts).1.failures = r.failures
    ∧ (runSuite (stepInteractive c) r ts).1.errors = r.errors
    ∧ (runSuite (stepInteractive c) r ts).1.shouldStop = false
    ∧ (runSuite (stepInteractive c) r ts).1.testsRun = r.testsRun + ts.length := by
  induction ts generalizing r with
  | nil => simp [runSuite, h]
  | cons t ts ih =>
    have h1 : ((stepInteractive c r t).1).shouldStop = false := by
      rw [stepInteractive_fst]; exact h
    rcases ih ((stepInteractive c r t).1) h1 with ⟨hf, he, hs, hn⟩
    refine ⟨?_, ?_, ?_, ?_⟩ <;> rw [runSuite_cons_fst _ _ _ _ h]
    · rw [hf, stepInteractive_fst]
    · rw [he, stepInteractive_fst]
    · exact hs
    · rw [hn, stepInteractive_fst]
      simp only [List.length_cons]
      omega

theorem stepPlain_pass (r : RunResult) (t : TestCase) (h : t.outcome = Outcome.pass) :
    stepPlain r t = ({ r with testsRun := r.testsRun + 1 }, plainBlock t) := by
  simp [stepPlain, runOneTest, h, plainBlock]

theorem stepPlain_fail (r : RunResult) (t : TestCase) (h : t.outcome = Outcome.fail) :
    stepPlain r t
      = ({ r with
            testsRun := r.testsRun + 1
            failures := r.failures ++ [(t.name, t.excText)]
            shouldStop := true },
         plainBlock t) := by
  simp [stepPlain, runOneTest, addFailurePlain, h, plainBlock]

theorem stepPlain_err (r : RunResult) (t : TestCase) (h : t.outcome = Outcome.err) :
    stepPlain r t
      = ({ r with
            testsRun := r.testsRun + 1
            errors := r.errors ++ [(t.name, t.excText)]
            shouldStop := true },
         plainBlock t) := by
  simp [stepPlain, runOneTest, addErrorPlain, h, plainBlock]

theorem runSuite_plain_snd (r : RunResult) (ts : List TestCase)
    (h : r.shouldStop = false) :
    (runSuite stepPlain r ts).2 = (failfastTaken ts).flatMap plainBlock := by
  induction ts generalizing r with
  | nil => simp [runSuite, failfastTaken]
  | cons t ts ih =>
    cases ho : t.outcome with
    | pass =>
      have h1 : (({ r with testsRun := r.testsRun + 1 } : RunResult)).shouldStop = false := h
      rw [runSuite_cons_snd _ _ _ _ h, stepPlain_pass r t ho]
      simp only [ih _ h1]
      simp [failfastTaken, ho]
    | fail =>
      rw [runSuite_cons_snd _ _ _ _ h, stepPlain_fail r t ho]
      rw [runSuite_of_shouldStop stepPlain _ ts rfl]
      simp [failfastTaken, ho]
    | err =>
      rw [runSuite_cons_snd _ _ _ _ h, stepPlain_err r t ho]
      rw [runSuite_of_shouldStop stepPlain _ ts rfl]
      simp [failfastTaken, ho]

/-- What a fail-fast plain run appends to the `failures` list: the first
failing test, if the first non-passing test is a failure. -/
def recordedFailures (ts : List TestCase) : List (String × String) :=
  match firstBad ts with
  | some t => if t.outcome = Outcome.fail then [(t.name, t.excText)] else []
  | none => []

/-- What a fail-fast plain run appends to the `errors` list: the first
erroring test, if the first non-passing test is an error. -/
def recordedErrors (ts : List TestCase) : List (String × String) :=
  match firstBad ts with
  | some t => if t.outcome = Outcome.err then [(t.name, t.excText)] else []
  | none => []

theorem recordedFailures_cons_pass (t : TestCase) (ts : List TestCase)
    (h : t.outcome = Outcome.pass) : recordedFailures (t :: ts) = recordedFailures ts := by
  simp [recordedFailures, firstBad, h]

theorem recordedErrors_cons_pass (t : TestCase) (ts : List TestCase)
    (h : t.outcome = Outcome.pass) : recordedErrors (t :: ts) = recordedErrors ts := by
  simp [recordedErrors, firstBad, h]

theorem runSuite_plain_records (r : RunResult) (ts : List TestCase)
    (h : r.shouldStop = false) :
    (runSuite stepPlain r ts).1.failures = r.failures ++ recordedFailures ts
    ∧ (runSuite stepPlain r ts).1.errors = r.errors ++ recordedErrors ts := by
  induction ts generalizing r with
  | nil => simp [runSuite, recordedFailures, recordedErrors, firstBad]
  | cons t ts ih =>
    cases ho : t.outcome with
    | pass =>
      have h1 : (({ r with testsRun := r.testsRun + 1 } : RunResult)).shouldStop = false := h
      rcases ih ({ r with testsRun := r.testsRun + 1 }) h1 with ⟨hf, he⟩
      constructor
      · rw [runSuite_cons_fst _ _ _ _ h, stepPlain_pass r t ho]
        simp only [hf]
        simp [recordedFailures_cons_pass t ts ho]
      · rw [runSuite_cons_fst _ _ _ _ h, stepPlain_pass r t ho]
        simp only [he]
        simp [recordedErrors_cons_pass t ts ho]
    | fail =>
      constructor <;>
        · rw [runSuite_cons_fst _ _ _ _ h, stepPlain_fail r t ho]
          rw [runSuite_of_shouldStop stepPlain _ ts rfl]
          simp [recordedFailures, recordedErrors, firstBad, ho]
    | err =>
      constructor <;>
        · rw [runSuite_cons_fst _ _ _ _ h, stepPlain_err r t ho]
          rw [runSuite_of_shouldStop stepPlain _ ts rfl]
          simp [recordedFailures, recordedErrors, firstBad, ho]

/-- Comparison used by `sorted(ctx.mounts.items(), lambda a, b: cmp(a[0], b[0]))`:
order the `(id, handle)` pairs by mount identifier. -/
def mountKeyLE : Nat × Nat → Nat × Nat → Prop := fun a b => a.1 ≤ b.1

instance : DecidableRel mountKeyLE :=
  fun a b => inferInstanceAs (Decidable (a.1 ≤ b.1))

instance : IsTotal (Nat × Nat) mountKeyLE :=
  ⟨fun a b => Nat.le_total a.1 b.1⟩

instance : IsTrans (Nat × Nat) mountKeyLE :=
  ⟨fun _ _ _ h1 h2 => Nat.le_trans h1 h2⟩

/-- `mounts = [v for k, v in sorted(ctx.mounts.items(), lambda a, b: cmp(a[0], b[0]))]`:
the mount handles, sorted by mount identifier (Python's `sorted` is a stable
comparison sort; insertion sort is one). -/
def mountsOf (ctx : Ctx) : List Nat :=
  (List.insertionSort mountKeyLE ctx.mounts).map Prod.snd

/-- The values stamped onto test classes by the `DecoratingLoader` the task
constructs: the execution context, the sorted mount-handle list, and the
filesystem handle. -/
inductive Val
  | ctxVal (c : Ctx)
  | mountList (ms : List Nat)
  | fsVal (f : Nat)
deriving DecidableEq, Repr

/-- A test-case class: its name, its test methods, and its class attribute
mapping (later `setattr` entries shadow earlier ones, as in Python). -/
structure TestClass where
  className : String
  methods : List String
  attrs : List (String × Val)
deriving DecidableEq, Repr

/-- `setattr(testCaseClass, k, v)`. -/
def setAttr (c : TestClass) (k : String) (v : Val) : TestClass :=
  { c with attrs := (k, v) :: c.attrs }

/-- `getattr(testCaseClass, k)`, as `None`-able lookup. -/
def getAttr (c : TestClass) (k : String) : Option Val :=
  c.attrs.lookup k

/-- One loaded test instance: the class it came from and the test method it
runs. -/
structure TestItem where
  cls : TestClass
  methodName : String
deriving DecidableEq, Repr

/-- The stock `TestLoader.loadTestsFromTestCase`: one test instance per test
method of the class. -/
def baseLoadTestsFromTestCase (c : TestClass) : List TestItem :=
  c.methods.map (fun m => ⟨c, m⟩)

/-- The decoration loop in `DecoratingLoader.loadTestsFromTestCase`:
`for k, v in self._params.items(): setattr(testCaseClass, k, v)`. -/
def applyParams (params : List (String × Val)) (c : TestClass) : TestClass :=
  params.foldl (fun acc kv => setAttr acc kv.1 kv.2) c

/-- `DecoratingLoader.loadTestsFromTestCase`: stamp every shared attribute
onto the class, then delegate to the superclass loader. -/
def loadTestsFromTestCase (params : List (String × Val)) (c : TestClass) : List TestItem :=
  baseLoadTestsFromTestCase (applyParams params c)

/-- Modelled from the spec: what a dotted name resolves to in the external
unittest framework's `loadTestsFromName` — a module (a collection of
test-case classes), a single test-case class, or a single test method of a
class. The resolution environment itself is a parameter. -/
inductive Resolved
  | module (classes : List TestClass)
  | testCase (c : TestClass)
  | testMethod (c : TestClass) (m : String)
deriving DecidableEq, Repr

/-- Modelled from the spec: `loadFromName(name)` resolves `name` and, for
every concrete test-case class encountered, applies the shared attributes
(through `loadTestsFromTestCase`) before delegating; `none` models the
resolution error when the name does not resolve. -/
def loadTestsFromName (params : List (String × Val)) (resolve : String → Option Resolved)
    (name : String) : Option (List TestItem) :=
  match resolve name with
  | none => none
  | some (Resolved.module cs) => some (cs.flatMap (loadTestsFromTestCase params))
  | some (Resolved.testCase c) => some (loadTestsFromTestCase params c)
  | some (Resolved.testMethod c m) =>
      some ((loadTestsFromTestCase params c).filter (fun it => it.methodName == m))

/-- Modelled from the spec: `discover(rootPath)` scans the root for test-case
classes (the scan itself is the external framework's convention, a parameter
here) and applies the same decoration to every discovered class. -/
def discoverLoad (params : List (String × Val)) (classes : List TestClass) : List TestItem :=
  classes.flatMap (loadTestsFromTestCase params)

/-- The guard `if config and 'modules' in config and config['modules']:` —
the requested module list when the config is present, has the key, and the
list is non-empty. -/
def modulesRequested : Option Config → Option (List String)
  | none => none
  | some c =>
    match c.modules with
    | none => none
    | some ms => if ms.isEmpty then none else some ms

/-- `os.path.join(os.path.dirname(os.path.abspath(__file__)), "cephfs/")`:
the fixed conventional discovery directory relative to the system's own
location (`selfDir`). -/
def cephfsDir (selfDir : String) : String :=
  selfDir ++ "/" ++ "cephfs/"

/-- Suite assembly in `task`: with a non-empty `modules` option, load each
named collection in order and compose them (`suite.TestSuite(module_suites)`,
flattened); otherwise discover under the conventional directory. A failed
name resolution aborts assembly (`none`). -/
def assembleSuite (params : List (String × Val)) (resolve : String → Option Resolved)
    (discoverAt : String → List TestClass) (selfDir : String) (config : Option Config) :
    Option (List TestItem) :=
  match modulesRequested config with
  | some ms => (ms.mapM (loadTestsFromName params resolve)).map List.flatten
  | none => some (discoverLoad params (discoverAt (cephfsDir selfDir)))

theorem getAttr_setAttr_self (c : TestClass) (k : String) (v : Val) :
    getAttr (setAttr c k v) k = some v := by
  simp [getAttr, setAttr, List.lookup]

theorem getAttr_setAttr_ne (c : TestClass) (k k' : String) (v : Val) (hne : k ≠ k') :
    getAttr (setAttr c k' v) k = getAttr c k := by
  have hbeq : (k == k') = false := beq_eq_false_iff_ne.mpr hne
  simp [getAttr, setAttr, List.lookup, hbeq]

theorem applyParams_cons (p : String × Val) (params : List (String × Val)) (c : TestClass) :
    applyParams (p :: params) c = applyParams params (setAttr c p.1 p.2) := rfl

theorem getAttr_applyParams_of_not_mem (params : List (String × Val)) (c : TestClass)
    (k : String) (hk : k ∉ params.map Prod.fst) :
    getAttr (applyParams params c) k = getAttr c k := by
  induction params generalizing c with
  | nil => rfl
  | cons p ps ih =>
    have hk1 : k ≠ p.1 := by
      intro hkp
      exact hk (by simp [hkp])
    have hk2 : k ∉ ps.map Prod.fst := by
      intro hm
      exact hk (by simp [hm])
    rw [applyParams_cons, ih _ hk2, getAttr_setAttr_ne _ _ _ _ hk1]

theorem getAttr_applyParams (params : List (String × Val)) (c : TestClass)
    (k : String) (v : Val) (hkv : (k, v) ∈ params)
    (hnd : (params.map Prod.fst).Nodup) :
    getAttr (applyParams params c) k = some v := by
  induction params generalizing c with
  | nil => cases hkv
  | cons p ps ih =>
    rcases List.mem_cons.mp hkv with hkv | hkv
    · subst hkv
      have hk : k ∉ ps.map Prod.fst := by
        simpa using (List.nodup_cons.mp hnd).1
      rw [applyParams_cons, getAttr_applyParams_of_not_mem ps _ k hk,
        getAttr_setAttr_self]
    · rw [applyParams_cons]
      exact ih (setAttr c p.1 p.2) hkv (List.nodup_cons.mp hnd).2

theorem cls_of_mem_loadTestsFromTestCase (params : List (String × Val)) (c : TestClass)
    (it : TestItem) (hit : it ∈ loadTestsFromTestCase params c) :
    it.cls = applyParams params c := by
  simp only [loadTestsFromTestCase, baseLoadTestsFromTestCase, List.mem_map] at hit
  rcases hit with ⟨m, _, rfl⟩
  rfl

theorem cls_of_mem_loadTestsFromName (params : List (String × Val))
    (resolve : String → Option Resolved) (name : String) (items : List TestItem)
    (hres : loadTestsFromName params resolve name = some items)
    (it : TestItem) (hit : it ∈ items) :
    ∃ c : TestClass, it.cls = applyParams params c := by
  unfold loadTestsFromName at hres
  rcases hr : resolve name with _ | ⟨res⟩ <;> rw [hr] at hres
  · cases hres
  · cases res with
    | module cs =>
      cases hres
      rcases List.mem_flatMap.mp hit with ⟨c, _, hin⟩
      exact ⟨c, cls_of_mem_loadTestsFromTestCase params c it hin⟩
    | testCase c =>
      cases hres
      exact ⟨c, cls_of_mem_loadTestsFromTestCase params c it hit⟩
    | testMethod c m =>
      cases hres
      exact ⟨c, cls_of_mem_loadTestsFromTestCase params c it (List.mem_of_mem_filter hit)⟩

theorem cls_of_mem_discoverLoad (params : List (String × Val)) (classes : List TestClass)
    (it : TestItem) (hit : it ∈ discoverLoad params classes) :
    ∃ c : TestClass, it.cls = applyParams params c := by
  rcases List.mem_flatMap.mp hit with ⟨c, _, hin⟩
  exact ⟨c, cls_of_mem_loadTestsFromTestCase params c it hin⟩

theorem mapM_loadName_length {α β : Type} (f : α → Option β) (l : List α) (l' : List β)
    (h : l.mapM f = some l') : l'.length = l.length := by
  induction l generalizing l' with
  | nil => cases h; rfl
  | cons a as ih =>
    rw [List.mapM_cons] at h
    rcases hfa : f a with _ | b <;> rw [hfa] at h
    · cases h
    · rcases hfs : as.mapM f with _ | bs <;> rw [hfs] at h
      · cases h
      · cases h
        simp [ih bs hfs]

theorem failfastTaken_append (pre : List TestCase) (t : TestCase) (post : List TestCase)
    (hpre : ∀ u ∈ pre, u.outcome = Outcome.pass) (ht : t.outcome ≠ Outcome.pass) :
    failfastTaken (pre ++ t :: post) = pre ++ [t] := by
  induction pre with
  | nil => simp [failfastTaken, ht]
  | cons u us ih =>
    have hu : u.outcome = Outcome.pass := hpre u (by simp)
    have hus : ∀ w ∈ us, w.outcome = Outcome.pass := fun w hw => hpre w (by simp [hw])
    simp [failfastTaken, hu, ih hus]

/-- Recognizes an invocation of the interactive debugging collaborator. -/
def isInteractiveInvocation : Event → Bool
  | Event.interactiveTask _ _ => true
  | _ => false

/-- Recognizes a `log.info` record. -/
def isLogInfo : Event → Bool
  | Event.logInfo _ => true
  | _ => false

/-- Concrete fixtures used by witnesses and counterexamples. -/
def ctx0 : Ctx := ⟨[(0, 10), (1, 11)], true, none⟩

def tpass1 : TestCase := ⟨"t1", "t1d", "", Outcome.pass⟩

def tfail2 : TestCase := ⟨"t2", "t2d", "boom", Outcome.fail⟩

def tpass3 : TestCase := ⟨"t3", "t3d", "", Outcome.pass⟩

/-- C1: the claim as stated is false on the code: under the interactive
failure-policy variant, a later test does execute after an earlier test
fails — with suite `[t2 fails, t3 passes]` the interactive run still
executes `t3`, because `InteractiveFailureResult.addFailure` never reaches
the fail-fast `stop()`. -/
theorem claim_c1_counterexample :
    Event.exec "t3" ∈ (runSuite (stepInteractive ctx0) initResult [tfail2, tpass3]).2 := by
  decide

/-- C1 (amended): fail-fast holds under the plain variant — when test k is
the first to fail or error, the run's behaviour on `tests 1..k ++ rest` is
identical to the run on `tests 1..k` alone, so tests k+1..N never execute;
under the interactive variant the stop flag is never set on a failure or
error, so every test of the suite executes. -/
theorem claim_c1_failfast (pre post : List TestCase) (t : TestCase) (c : Ctx)
    (hpre : ∀ u ∈ pre, u.outcome = Outcome.pass) (ht : t.outcome ≠ Outcome.pass) :
    (runSuite stepPlain initResult (pre ++ t :: post)).2
      = (runSuite stepPlain initResult (pre ++ [t])).2
    ∧ (runSuite (stepInteractive c) initResult (pre ++ t :: post)).2
      = (pre ++ t :: post).flatMap (interactiveBlock c) := by
  constructor
  · rw [runSuite_plain_snd _ _ rfl, runSuite_plain_snd _ _ rfl,
      failfastTaken_append pre t post hpre ht, failfastTaken_append pre t [] hpre ht]
  · exact runSuite_interactive_snd c initResult _ rfl

/-- C1 witness: with `[t1 passes, t2 fails, t3 passes]` the plain fail-fast
run's trace equals the trace of `[t1, t2]` alone. -/
theorem claim_c1_failfast_witness :
    (runSuite stepPlain initResult ([tpass1] ++ tfail2 :: [tpass3])).2
      = (runSuite stepPlain initResult ([tpass1] ++ [tfail2])).2 :=
  (claim_c1_failfast [tpass1] [tpass3] tfail2 ctx0 (by decide) (by decide)).1

/-- C2: after a plain fail-fast run the task raises the aggregate error iff
the Run Result recorded a failure or error; the raised message is
`Test failure: ` followed by the comma-joined `str(test)` identifiers of the
recorded errors-then-failures; and a fail-fast run records at most one bad
test in total, so that listing is in recorded order. -/
theorem claim_c2_aggregate (ts : List TestCase) :
    (taskVerdict (runSuite stepPlain initResult ts).1 = Except.ok ()
      ↔ ((runSuite stepPlain initResult ts).1.failures = []
          ∧ (runSuite stepPlain initResult ts).1.errors = []))
    ∧ (∀ msg, taskVerdict (runSuite stepPlain initResult ts).1 = Except.error msg →
        msg = "Test failure: " ++ String.intercalate ", "
          (badTests (runSuite stepPlain initResult ts).1))
    ∧ badTests (runSuite stepPlain initResult ts).1
        = (recordedErrors ts ++ recordedFailures ts).map Prod.fst
    ∧ (recordedErrors ts ++ recordedFailures ts).length ≤ 1 := by
  rcases runSuite_plain_records initResult ts rfl with ⟨hf, he⟩
  have hf' : (runSuite stepPlain initResult ts).1.failures = recordedFailures ts := by
    simpa [initResult] using hf
  have he' : (runSuite stepPlain initResult ts).1.errors = recordedErrors ts := by
    simpa [initResult] using he
  refine ⟨?_, ?_, ?_, ?_⟩
  · unfold taskVerdict wasSuccessful
    by_cases h1 : (runSuite stepPlain initResult ts).1.failures = []
    · by_cases h2 : (runSuite stepPlain initResult ts).1.errors = []
      · simp [h1, h2]
      · simp [h1, h2, List.isEmpty_iff]
    · simp [h1, List.isEmpty_iff]
  · intro msg hmsg
    unfold taskVerdict at hmsg
    by_cases hs : wasSuccessful (runSuite stepPlain initResult ts).1
    · rw [if_pos hs] at hmsg
      cases hmsg
    · rw [if_neg hs] at hmsg
      cases hmsg
      rfl
  · rw [badTests, hf', he', List.map_append]
  · rcases hfb : firstBad ts with _ | t
    · simp [recordedFailures, recordedErrors, hfb]
    · cases ho : t.outcome <;> simp [recordedFailures, recordedErrors, hfb, ho]

/-- C2 witness: a suite whose only test fails produces exactly the message
naming that test. -/
theorem claim_c2_aggregate_witness :
    "Test failure: t2" = "Test failure: " ++ String.intercalate ", "
      (badTests (runSuite stepPlain initResult [tpass1, tfail2]).1) :=
  (claim_c2_aggregate [tpass1, tfail2]).2.1 "Test failure: t2" (by rfl)

/-- C10: under the interactive variant a failing or erroring test appends
nothing to the Run Result's `failures` and `errors`, so any interactive run
reports success and the task yields normally instead of raising the
aggregate error — for every suite, including failing ones. -/
theorem claim_c10_interactive_no_record (c : Ctx) (ts : List TestCase) :
    (runSuite (stepInteractive c) initResult ts).1.failures = []
    ∧ (runSuite (stepInteractive c) initResult ts).1.errors = []
    ∧ wasSuccessful (runSuite (stepInteractive c) initResult ts).1 = true
    ∧ taskVerdict (runSuite (stepInteractive c) initResult ts).1 = Except.ok () := by
  rcases runSuite_interactive_fst c initResult ts rfl with ⟨hfail, herr, -, -⟩
  have hf : (runSuite (stepInteractive c) initResult ts).1.failures = [] := hfail
  have he : (runSuite (stepInteractive c) initResult ts).1.errors = [] := herr
  have hws : wasSuccessful (runSuite (stepInteractive c) initResult ts).1 = true := by
    simp [wasSuccessful, hf, he]
  exact ⟨hf, he, hws, by simp [taskVerdict, hws]⟩

/-- C3: every test item obtained through the Context-Decorating Loader —
by name resolution (module, module.Class, or module.Class.method) or by
directory discovery — carries a class on which every shared attribute equals
the input mapping's value; the decoration happens at load time, before the
assembled suite is handed to the engine, hence before any test method of
the class is invoked. -/
theorem claim_c3_decoration (params : List (String × Val))
    (resolve : String → Option Resolved) (discovered : List TestClass)
    (name : String) (items : List TestItem) (it : TestItem) (k : String) (v : Val)
    (hnd : (params.map Prod.fst).Nodup)
    (hsrc : loadTestsFromName params resolve name = some items
      ∨ items = discoverLoad params discovered)
    (hit : it ∈ items) (hkv : (k, v) ∈ params) :
    getAttr it.cls k = some v := by
  rcases hsrc with hsrc | hsrc
  · rcases cls_of_mem_loadTestsFromName params resolve name items hsrc it hit with ⟨c, hc⟩
    rw [hc]
    exact getAttr_applyParams params c k v hkv hnd
  · subst hsrc
    rcases cls_of_mem_discoverLoad params discovered it hit with ⟨c, hc⟩
    rw [hc]
    exact getAttr_applyParams params c k v hkv hnd

/-- The Shared Attributes Set the task builds:
`{"ctx": ctx, "mounts": mounts, "fs": fs}`. -/
def taskParams (ctx : Ctx) (fsHandle : Nat) : List (String × Val) :=
  [("ctx", Val.ctxVal ctx), ("mounts", Val.mountList (mountsOf ctx)),
   ("fs", Val.fsVal fsHandle)]

def cls0 : TestClass := ⟨"TestX", ["test_a", "test_b"], []⟩

def resolve0 : String → Option Resolved :=
  fun n => if n = "tasks.cephfs.test_x" then some (Resolved.module [cls0]) else none

/-- C3 witness: after loading `tasks.cephfs.test_x` with the task's shared
attributes for `ctx0`, the loaded class answers `fs` with the stamped
filesystem handle. -/
theorem claim_c3_decoration_witness :
    getAttr (TestItem.mk (applyParams (taskParams ctx0 7) cls0) "test_a").cls "fs"
      = some (Val.fsVal 7) :=
  claim_c3_decoration (taskParams ctx0 7) resolve0 [] "tasks.cephfs.test_x"
    ([cls0].flatMap (loadTestsFromTestCase (taskParams ctx0 7)))
    (TestItem.mk (applyParams (taskParams ctx0 7) cls0) "test_a") "fs" (Val.fsVal 7)
    (by decide) (Or.inl (by rfl)) (by decide) (by decide)

/-- C4: with a present non-empty `modules` option the assembled suite is the
composition, in input order, of each name's resolved collection (and
assembly fails if any name fails to resolve); otherwise — config absent, key
absent, or empty list — the suite comes from discovery over the fixed
conventional `cephfs/` directory next to the system's own location. -/
theorem claim_c4_assembly (params : List (String × Val))
    (resolve : String → Option Resolved) (discoverAt : String → List TestClass)
    (selfDir : String) (config : Option Config) (c : Config)
    (ms : List String) (suites : List (List TestItem)) :
    (c.modules = some ms → ms ≠ [] →
        assembleSuite params resolve discoverAt selfDir (some c)
          = (ms.mapM (loadTestsFromName params resolve)).map List.flatten)
    ∧ (modulesRequested config = none →
        assembleSuite params resolve discoverAt selfDir config
          = some (discoverLoad params (discoverAt (cephfsDir selfDir))))
    ∧ (ms.mapM (loadTestsFromName params resolve) = some suites →
        ((ms.mapM (loadTestsFromName params resolve)).map List.flatten
            = some suites.flatten
          ∧ suites.length = ms.length)) := by
  refine ⟨?_, ?_, ?_⟩
  · intro hmod hne
    have hreq : modulesRequested (some c) = some ms := by
      simp [modulesRequested, hmod, List.isEmpty_iff, hne]
    simp [assembleSuite, hreq]
  · intro hreq
    simp [assembleSuite, hreq]
  · intro hmap
    exact ⟨by rw [hmap]; rfl, mapM_loadName_length _ ms suites hmap⟩

/-- C4 witness: a config naming two modules assembles their two collections
in order. -/
theorem claim_c4_assembly_witness :
    assembleSuite (taskParams ctx0 7) resolve0 (fun _ => []) "tasks"
        (some ⟨some ["tasks.cephfs.test_x", "tasks.cephfs.test_x"]⟩)
      = (["tasks.cephfs.test_x", "tasks.cephfs.test_x"].mapM
          (loadTestsFromName (taskParams ctx0 7) resolve0)).map List.flatten :=
  (claim_c4_assembly (taskParams ctx0 7) resolve0 (fun _ => []) "tasks"
    none ⟨some ["tasks.cephfs.test_x", "tasks.cephfs.test_x"]⟩
    ["tasks.cephfs.test_x", "tasks.cephfs.test_x"] []).1 rfl (by decide)

/-- C5: `write` appends the text to the buffer, emits exactly the
terminator-complete lines (none of which contains a terminator, and which
rejoin with the retained fragment to the full input), and retains the final
fragment as the new buffer; concretely, on an empty buffer writing
`a\nb\nc` emits exactly `a` and `b` leaving buffer `c`, and a subsequent
write of `d\n` emits exactly `cd` leaving an empty buffer. -/
theorem claim_c5_log_sink :
    (∀ (s : LogStream) (data : List Char),
        (s.write data).1 = (splitLines (s.buffer ++ data)).dropLast
        ∧ (s.write data).2.buffer = (splitLines (s.buffer ++ data)).getLastD []
        ∧ (∀ p ∈ (s.write data).1, '\n' ∉ p)
        ∧ joinLines (splitLines (s.buffer ++ data)) = s.buffer ++ data)
    ∧ (LogStream.mk []).write ['a', '\n', 'b', '\n', 'c'] = ([['a'], ['b']], ⟨['c']⟩)
    ∧ (LogStream.mk ['c']).write ['d', '\n'] = ([['c', 'd']], ⟨[]⟩) := by
  refine ⟨fun s data => ⟨(s.write_eq data).1, (s.write_eq data).2, ?_,
    joinLines_splitLines _⟩, by decide, by decide⟩
  intro p hp
  rw [(s.write_eq data).1] at hp
  exact not_mem_of_mem_splitLines _ p (List.dropLast_subset _ hp)

/-- C5 witness: the first emitted record of the concrete scenario is a
complete line with no terminator in it. -/
theorem claim_c5_log_sink_witness : '\n' ∉ ['a'] :=
  (claim_c5_log_sink.1 ⟨[]⟩ ['a', '\n', 'b', '\n', 'c']).2.2.1 ['a'] (by decide)

/-- C6: under the interactive variant the whole run trace is the per-test
blocks in order, and on every failure or error outcome the block logs the
formatted error detail, then the diagnostic naming the test, and then
invokes the interactive debugging collaborator exactly once, passing
`(ctx, config=None)`; a passing test triggers no invocation. -/
theorem claim_c6_interactive_invocation (c : Ctx) (ts : List TestCase) (t : TestCase) :
    (runSuite (stepInteractive c) initResult ts).2 = ts.flatMap (interactiveBlock c)
    ∧ (t.outcome = Outcome.fail →
        interactiveBlock c t
          = [Event.logInfo ("Starting test: " ++ t.desc), Event.exec t.name,
             Event.logError t.excText,
             Event.logError ("Failure in test " ++ t.desc ++ ", going interactive"),
             Event.interactiveTask c none])
    ∧ (t.outcome = Outcome.err →
        interactiveBlock c t
          = [Event.logInfo ("Starting test: " ++ t.desc), Event.exec t.name,
             Event.logError t.excText,
             Event.logError ("Error in test " ++ t.desc ++ ", going interactive"),
             Event.interactiveTask c none])
    ∧ (interactiveBlock c t).countP isInteractiveInvocation
        = (if t.outcome = Outcome.pass then 0 else 1) := by
  refine ⟨runSuite_interactive_snd c initResult ts rfl, ?_, ?_, ?_⟩
  · intro h
    simp [interactiveBlock, h]
  · intro h
    simp [interactiveBlock, h]
  · cases h : t.outcome <;>
      simp [interactiveBlock, h, isInteractiveInvocation, List.countP_cons]

/-- C6 witness: the block of a concrete failing test, with the two log
records then the single collaborator invocation. -/
theorem claim_c6_interactive_invocation_witness :
    interactiveBlock ctx0 tfail2
      = [Event.logInfo ("Starting test: " ++ tfail2.desc), Event.exec tfail2.name,
         Event.logError tfail2.excText,
         Event.logError ("Failure in test " ++ tfail2.desc ++ ", going interactive"),
         Event.interactiveTask ctx0 none] :=
  (claim_c6_interactive_invocation ctx0 [] tfail2).2.1 (by decide)

/-- C7: the claim as stated is false on the code: `task` writes the `fs`
attribute onto the execution context (`ctx.fs = fs`), so the context is not
left unmutated — at a concrete context without `fs`, the updated context
differs from the original. -/
theorem claim_c7_counterexample :
    taskCtxUpdate ⟨[], false, none⟩ 1 ≠ ⟨[], false, none⟩ := by
  decide

/-- C7 (amended): the harness writes exactly one field of the execution
context — it stores the filesystem handle as `ctx.fs` for interactive
debugging — and leaves the mount mapping and the interactive-on-error
configuration unmutated; mount handles and the filesystem handle are only
distributed by reference. -/
theorem claim_c7_frame (ctx : Ctx) (fsHandle : Nat) :
    (taskCtxUpdate ctx fsHandle).mounts = ctx.mounts
    ∧ (taskCtxUpdate ctx fsHandle).interactiveOnError = ctx.interactiveOnError
    ∧ (taskCtxUpdate ctx fsHandle).fs = some fsHandle := by
  exact ⟨rfl, rfl, rfl⟩

/-- C8: the `mounts` value stamped onto test classes is the mount handles of
the context's mount mapping ordered by ascending mount identifier: it is the
second-component image of a key-sorted permutation of `ctx.mounts`. -/
theorem claim_c8_mounts_sorted (ctx : Ctx) :
    ∃ l : List (Nat × Nat), List.Sorted mountKeyLE l ∧ l.Perm ctx.mounts
      ∧ mountsOf ctx = l.map Prod.snd
      ∧ (mountsOf ctx).length = ctx.mounts.length := by
  refine ⟨List.insertionSort mountKeyLE ctx.mounts,
    List.sorted_insertionSort mountKeyLE ctx.mounts,
    List.perm_insertionSort mountKeyLE ctx.mounts, rfl, ?_⟩
  rw [mountsOf, List.length_map]
  exact (List.perm_insertionSort mountKeyLE ctx.mounts).length_eq

/-- C9: under both variants the run trace is composed of per-test blocks
(all tests interactively, the fail-fast prefix plainly), and each block
starts with exactly one `log.info` line identifying the test, emitted before
the test executes. -/
theorem claim_c9_startTest (c : Ctx) (ts : List TestCase) (t : TestCase) :
    (runSuite (stepInteractive c) initResult ts).2 = ts.flatMap (interactiveBlock c)
    ∧ (runSuite stepPlain initResult ts).2 = (failfastTaken ts).flatMap plainBlock
    ∧ (interactiveBlock c t).take 2
        = [Event.logInfo ("Starting test: " ++ t.desc), Event.exec t.name]
    ∧ (plainBlock t).take 2
        = [Event.logInfo ("Starting test: " ++ t.desc), Event.exec t.name]
    ∧ (interactiveBlock c t).countP isLogInfo = 1
    ∧ (plainBlock t).countP isLogInfo = 1 := by
  refine ⟨runSuite_interactive_snd c initResult ts rfl,
    runSuite_plain_snd initResult ts rfl, ?_, rfl, ?_, rfl⟩
  · cases h : t.outcome <;> simp [interactiveBlock, h]
  · cases h : t.outcome <;>
      simp [interactiveBlock, h, isLogInfo, List.countP_cons]

end CephfsTestRunner
